import Mathlib

/-!
Shallow embedding of `src/shinsen_sim_app/engine.py`: a turn-based battle
resolver (`Engine.run_battle`) over two teams of units, tunable damage and
heal formulas, a status-effect lifecycle, and a Monte Carlo aggregator
(`simulate_many`).

Modelling conventions:
* Python `int` is `Int`; Python `float` is `ℚ` (exact arithmetic in place of
  IEEE doubles — every claim below is about order/clamping/flooring structure,
  not about rounding of binary floats).
* Python's seeded `random.Random` is modelled as a stream of rational draws
  (`Rng`): `random()` pops the next stream value; `uniform(a,b)` is
  `a + (b-a)·random()` as in CPython; `choice` picks a list index from one
  draw; `randint` derives an integer from one draw.  Every claim proved about
  battles is universally quantified over the stream, or evaluated on a
  concrete stream.
* Python dicts (`statuses`, `triggers`, trigger aggregation) are
  insertion-ordered association lists, updated in place / appended exactly as
  CPython's dict does.
* Mutation of `Unit` objects is modelled by threading a `BS` (battle state:
  the two team lists) through the functions; a unit object reference is a
  `(Side, index)` pair.
-/

namespace Shinsen

/-- Model of dataclass `Status` (engine.py lines 7-11). -/
structure Status where
  name : String
  turns_left : Int
  stacksN : Int
deriving DecidableEq

/-- Model of one effect descriptor `Dict[str, Any]` as read by
`Engine._apply_effects`: each key that the code reads via `eff.get(...)` is an
optional field; `get` defaults are applied at the use sites exactly as in the
code. -/
structure Effect where
  etype : Option String
  rate : Option ℚ
  count : Option Int
  target : Option String
  sname : Option String
  turns : Option Int
deriving DecidableEq

/-- Model of dataclass `Skill` (engine.py lines 13-20). -/
structure Skill where
  skill_id : String
  name : String
  slot : String
  timing : String
  proc : ℚ
  effects : List Effect
deriving DecidableEq

/-- Model of the `stats` dict of a unit with its four keys
`"str"/"int"/"lea"/"spd"` (the only keys the engine reads). -/
structure Stats where
  strV : ℚ
  intV : ℚ
  leaV : ℚ
  spdV : ℚ
deriving DecidableEq

/-- Association-list lookup keyed by strings; models `d[k]` / `k in d` on an
insertion-ordered Python dict represented as a list of key-value pairs. -/
def slookup (k : String) : List (String × α) → Option α
  | [] => none
  | p :: ps => if p.1 = k then some p.2 else slookup k ps

/-- Model of dataclass `Unit` (engine.py lines 22-57). -/
structure Unit where
  unit_id : String
  name : String
  stats : Stats
  max_soldiers : Int
  soldiers : Int
  unique_skill : Skill
  learn20_skill : Option Skill
  awaken_skill : Option Skill
  statuses : List (String × Status)
deriving DecidableEq

/-- `Unit.is_alive` (engine.py line 34-35). -/
def Unit.is_alive (u : Unit) : Bool :=
  decide (u.soldiers > 0)

/-- `Unit.has` (engine.py line 37-38). -/
def Unit.has (u : Unit) (status_name : String) : Bool :=
  match slookup status_name u.statuses with
  | some st => decide (st.turns_left > 0)
  | none => false

/-- The in-place field updates of `Unit.add_status` on a carried status
(engine.py lines 42-43): refresh `turns_left` to the max, add stacks capped
at 99. -/
def statusUpd (turns stacksN : Int) (s : Status) : Status :=
  { s with turns_left := max s.turns_left turns, stacksN := min (s.stacksN + stacksN) 99 }

/-- `Unit.add_status` (engine.py lines 40-45); the Python default argument
`stacksN=1` is passed explicitly by the one caller that omits it. -/
def Unit.add_status (u : Unit) (nm : String) (turns : Int) (stacksN : Int) : Unit :=
  match slookup nm u.statuses with
  | some _ =>
      { u with statuses := u.statuses.map (fun p =>
          if p.1 = nm then (p.1, statusUpd turns stacksN p.2) else p) }
  | none =>
      { u with statuses := u.statuses ++ [(nm, { name := nm, turns_left := turns, stacksN := stacksN })] }

/-- `Unit.tick_statuses_end_of_turn` (engine.py lines 47-51): decrement every
status counter, drop the ones at `≤ 0`. -/
def Unit.tick_statuses_end_of_turn (u : Unit) : Unit :=
  let dec := u.statuses.map (fun p => (p.1, { p.2 with turns_left := p.2.turns_left - 1 }))
  { u with statuses := dec.filter (fun p => decide (p.2.turns_left > 0)) }

/-- `Unit.all_skills` (engine.py lines 53-57); a present optional skill object
is always truthy in Python. -/
def Unit.all_skills (u : Unit) : List Skill :=
  [u.unique_skill]
    ++ (match u.learn20_skill with | some s => [s] | none => [])
    ++ (match u.awaken_skill with | some s => [s] | none => [])

/-- Placeholder unit used as the (never observed in a valid run) default of
out-of-range list reads. -/
def defUnit : Unit :=
  { unit_id := "", name := "", stats := ⟨0, 0, 0, 0⟩, max_soldiers := 0, soldiers := 0,
    unique_skill := { skill_id := "", name := "", slot := "", timing := "", proc := 0, effects := [] },
    learn20_skill := none, awaken_skill := none, statuses := [] }

/-- Model of dataclass `BattleResult` (engine.py lines 59-65). -/
structure BattleResult where
  winner : String
  turns : Int
  a_loss_rate : ℚ
  b_loss_rate : ℚ
  triggers : List (String × Nat)
deriving DecidableEq

/-- Model of the tuning dict `self.T`: each key the engine reads through
`self.T.get(key, default)` is an optional entry. -/
structure Tuning where
  attack_mix_lea : Option ℚ
  defense_factor_physical : Option ℚ
  physical_scale : Option ℚ
  defense_factor_strategy : Option ℚ
  strategy_scale : Option ℚ
  heal_scale : Option ℚ
  random_min : Option ℚ
  random_max : Option ℚ
  max_turns : Option Int
  confusion_skip_action : Option Bool

/-- `self.T.get("attack_mix_lea", 0.5)`. -/
def Tuning.attackMixLea (T : Tuning) : ℚ := T.attack_mix_lea.getD (1/2)

/-- `self.T.get("defense_factor_physical", 0.7)`. -/
def Tuning.defFacPhysical (T : Tuning) : ℚ := T.defense_factor_physical.getD (7/10)

/-- `self.T.get("physical_scale", 20.0)`. -/
def Tuning.physicalScale (T : Tuning) : ℚ := T.physical_scale.getD 20

/-- `self.T.get("defense_factor_strategy", 0.8)`. -/
def Tuning.defFacStrategy (T : Tuning) : ℚ := T.defense_factor_strategy.getD (4/5)

/-- `self.T.get("strategy_scale", 22.0)`. -/
def Tuning.strategyScale (T : Tuning) : ℚ := T.strategy_scale.getD 22

/-- `self.T.get("heal_scale", 18.0)`. -/
def Tuning.healScale (T : Tuning) : ℚ := T.heal_scale.getD 18

/-- `self.T.get("random_min", 0.95)`. -/
def Tuning.randomMin (T : Tuning) : ℚ := T.random_min.getD (19/20)

/-- `self.T.get("random_max", 1.05)`. -/
def Tuning.randomMax (T : Tuning) : ℚ := T.random_max.getD (21/20)

/-- `int(self.T.get("max_turns", 8))`. -/
def Tuning.maxTurns (T : Tuning) : Int := T.max_turns.getD 8

/-- `self.T.get("confusion_skip_action", True)`. -/
def Tuning.confusionSkip (T : Tuning) : Bool := T.confusion_skip_action.getD true

/-- Model of a seeded `random.Random` instance: an infinite stream of draws
(each draw stands for one `random()` output in `[0,1)`) plus a cursor. -/
structure Rng where
  stream : Nat → ℚ
  pos : Nat

/-- One draw: `self.rng.random()`. -/
def Rng.next (r : Rng) : ℚ × Rng :=
  (r.stream r.pos, { stream := r.stream, pos := r.pos + 1 })

/-- `self.rng.uniform(lo, hi)`; CPython computes `lo + (hi-lo)·random()`. -/
def Rng.uniform (r : Rng) (lo hi : ℚ) : ℚ × Rng :=
  let nx := r.next
  (lo + (hi - lo) * nx.1, nx.2)

/-- `self.rng.randint(lo, hi)` modelled as an integer derived from one draw. -/
def Rng.randint (r : Rng) (lo hi : Int) : Int × Rng :=
  let nx := r.next
  (lo + ⌊nx.1 * ((hi - lo + 1 : Int) : ℚ)⌋, nx.2)

/-- Index selection of `self.rng.choice` on a list of length `n > 0`:
one draw mapped into `[0, n-1]`. -/
def Rng.choiceIdx (r : Rng) (n : Nat) : Nat × Rng :=
  let nx := r.next
  (min (⌊nx.1 * (n : ℚ)⌋).toNat (n - 1), nx.2)

/-- Python `int(q)` on a float: truncation toward zero. -/
def pyInt (q : ℚ) : Int :=
  if 0 ≤ q then ⌊q⌋ else ⌈q⌉

/-- Troop scale subterm shared by both damage formulas (engine.py lines 96 and
107): `(a.soldiers / a.max_soldiers) if a.max_soldiers else 1.0`. -/
def troopScale (a : Unit) : ℚ :=
  if a.max_soldiers ≠ 0 then (a.soldiers : ℚ) / (a.max_soldiers : ℚ) else 1

/-- The pre-random part of `Engine.physical_damage` (engine.py lines 89-97):
`base = max(0, atk - def_fac*df)` times `rate`, `physical_scale`, troop scale. -/
def physVal (T : Tuning) (a d : Unit) (rate : ℚ) : ℚ :=
  max 0 (a.stats.strV + T.attackMixLea * a.stats.leaV - T.defFacPhysical * d.stats.leaV)
    * rate * T.physicalScale * troopScale a

/-- `Engine.physical_damage` (engine.py lines 89-99): scales by one uniform
draw and returns `int(max(1, dmg))`. -/
def physical_damage (T : Tuning) (a d : Unit) (rate : ℚ) (rng : Rng) : Int × Rng :=
  let ur := rng.uniform T.randomMin T.randomMax
  (pyInt (max 1 (physVal T a d rate * ur.1)), ur.2)

/-- The pre-random part of `Engine.strategy_damage` (engine.py lines 101-108). -/
def stratVal (T : Tuning) (a d : Unit) (rate : ℚ) : ℚ :=
  max 0 (a.stats.intV - T.defFacStrategy * d.stats.intV)
    * rate * T.strategyScale * troopScale a

/-- `Engine.strategy_damage` (engine.py lines 101-110). -/
def strategy_damage (T : Tuning) (a d : Unit) (rate : ℚ) (rng : Rng) : Int × Rng :=
  let ur := rng.uniform T.randomMin T.randomMax
  (pyInt (max 1 (stratVal T a d rate * ur.1)), ur.2)

/-- `Engine.heal` (engine.py lines 112-118): computes the amount, clamps the
target's soldiers at `max_soldiers`, returns the (uncapped) amount together
with the updated target unit. -/
def heal (T : Tuning) (h t : Unit) (rate : ℚ) (rng : Rng) : Int × Unit × Rng :=
  let ur := rng.uniform T.randomMin T.randomMax
  let amt := pyInt (max 1 (h.stats.intV * rate * T.healScale * ur.1))
  (amt, { t with soldiers := min t.max_soldiers (t.soldiers + amt) }, ur.2)

/-- Which of the two team lists a unit object lives in. -/
inductive Side
  | A
  | B
deriving DecidableEq

/-- The opposing side: `team_b if u in team_a else team_a`. -/
def Side.other : Side → Side
  | .A => .B
  | .B => .A

/-- A reference to one mutable `Unit` object: its team and its index there. -/
abbrev Ref := Side × Nat

/-- Battle state: the two team lists (`team_a`, `team_b`), mutated in place by
the Python engine. -/
structure BS where
  ta : List Unit
  tb : List Unit

/-- The list a side refers to. -/
def BS.team (st : BS) : Side → List Unit
  | .A => st.ta
  | .B => st.tb

/-- Dereference a unit object. -/
def BS.getU (st : BS) (r : Ref) : Unit :=
  (st.team r.1).getD r.2 defUnit

/-- Replace one team list. -/
def BS.setTeam (st : BS) (s : Side) (l : List Unit) : BS :=
  match s with
  | .A => { st with ta := l }
  | .B => { st with tb := l }

/-- Mutate one unit object in place. -/
def BS.modifyU (st : BS) (r : Ref) (f : Unit → Unit) : BS :=
  st.setTeam r.1 ((st.team r.1).set r.2 (f ((st.team r.1).getD r.2 defUnit)))

/-- Engine-instance mutable state: `self.rng` and `self.triggers`
(engine.py lines 67-71).  `run_battle` threads it and never resets it. -/
structure EngSt where
  rng : Rng
  triggers : List (String × Nat)

/-- `Engine._record` (engine.py lines 85-86):
`self.triggers[sk.name] = self.triggers.get(sk.name, 0) + 1` on an
insertion-ordered dict. -/
def recordTrigger (tr : List (String × Nat)) (nm : String) : List (String × Nat) :=
  match slookup nm tr with
  | some _ => tr.map (fun p => if p.1 = nm then (p.1, p.2 + 1) else p)
  | none => tr ++ [(nm, 1)]

/-- Stable insertion step for `sortStable`. -/
def insStable (lt : α → α → Bool) (x : α) : List α → List α
  | [] => [x]
  | y :: ys => if lt y x then y :: insStable lt x ys else x :: y :: ys

/-- Stable sort w.r.t. a strict comparator: the unique stable order produced by
Python's `sort`/`sorted` (and `reverse=True` when `lt` is the flipped strict
comparator, since CPython's reverse sort is also stable). -/
def sortStable (lt : α → α → Bool) (l : List α) : List α :=
  l.foldr (insStable lt) []

/-- Indices of the living members of a team, in team order: models
`Engine._alive` (engine.py lines 73-74) keeping object identity as indices. -/
def aliveIdxs (team : List Unit) : List Nat :=
  (List.range team.length).filter (fun i => (team.getD i defUnit).is_alive)

/-- `Engine._pick_enemy` (engine.py lines 76-78): a uniformly chosen living
member of the enemy team, `None` if there is none; the rng is consumed only in
the nonempty case. -/
def pickEnemy (st : BS) (s : Side) (rng : Rng) : Option Nat × Rng :=
  let idxs := aliveIdxs (st.team s)
  if idxs.isEmpty then (none, rng)
  else
    let ci := rng.choiceIdx idxs.length
    (some (idxs.getD ci.1 0), ci.2)

/-- `Engine._pick_allies_lowest` (engine.py lines 80-83): living members of
`team`, stably sorted by ascending `soldiers`, first
`max(0, min(count, len(alive)))` of them, as indices into `team`. -/
def pick_allies_lowest (team : List Unit) (count : Int) : List Nat :=
  let alive := aliveIdxs team
  let sorted := sortStable
    (fun i j => decide ((team.getD i defUnit).soldiers < (team.getD j defUnit).soldiers)) alive
  sorted.take (Int.toNat (max 0 (min count (alive.length : Int))))

/-- Soldier-loss update `x.soldiers = max(0, x.soldiers - dmg)` used for both
skill damage (engine.py lines 126, 129) and the basic attack (line 178). -/
def damageUpd (d : Int) (u : Unit) : Unit :=
  { u with soldiers := max 0 (u.soldiers - d) }

/-- The heal branch of `Engine._apply_effects` (engine.py lines 130-134):
resolve targets — up to `count` living lowest-soldier allies, or the caster
itself — then heal each in order. -/
def healEffect (T : Tuning) (selfR : Ref) (eff : Effect) (st : BS) (rng : Rng) : BS × Rng :=
  let count := eff.count.getD 1
  let tgts : List Ref :=
    if eff.target = some ("ally_lowest") then
      (pick_allies_lowest (st.team selfR.1) count).map (fun i => (selfR.1, i))
    else [selfR]
  tgts.foldl (fun se2 tr =>
    let h2 := heal T (se2.1.getU selfR) (se2.1.getU tr) (eff.rate.getD 1) se2.2
    (se2.1.modifyU tr (fun _ => h2.2.1), h2.2.2)) (st, rng)

/-- The status branch of `Engine._apply_effects` (engine.py lines 135-137):
only a "confusion" status is inflicted, on the primary enemy target. -/
def statusEffect (tgtR : Ref) (eff : Effect) (st : BS) (rng : Rng) : BS × Rng :=
  if eff.sname = some ("confusion") then
    (st.modifyU tgtR (fun u => u.add_status ("confusion") (eff.turns.getD 1) 1), rng)
  else (st, rng)

/-- One iteration of the effect loop of `Engine._apply_effects`
(engine.py lines 121-137), acting on the battle state and the rng. -/
def applyEffect (T : Tuning) (selfR tgtR : Ref) (se : BS × Rng) (eff : Effect) : BS × Rng :=
  if eff.etype.isSome ∧ eff.etype.getD "" = "physical_damage" then
    let pd := physical_damage T (se.1.getU selfR) (se.1.getU tgtR) (eff.rate.getD 1) se.2
    (se.1.modifyU tgtR (damageUpd pd.1), pd.2)
  else if eff.etype.isSome ∧ eff.etype.getD "" = "strategy_damage" then
    let sd := strategy_damage T (se.1.getU selfR) (se.1.getU tgtR) (eff.rate.getD 1) se.2
    (se.1.modifyU tgtR (damageUpd sd.1), sd.2)
  else if eff.etype.isSome ∧ eff.etype.getD "" = "heal" then
    healEffect T selfR eff se.1 se.2
  else if eff.etype.isSome ∧ eff.etype.getD "" = "status" then
    statusEffect tgtR eff se.1 se.2
  else se

/-- `Engine._apply_effects` (engine.py lines 121-137): fold the effect list in
declaration order. -/
def applyEffects (T : Tuning) (selfR tgtR : Ref) (effs : List Effect) (st : BS) (rng : Rng) :
    BS × Rng :=
  effs.foldl (applyEffect T selfR tgtR) (st, rng)

/-- One iteration of a skill loop (engine.py lines 163-166 and 181-184):
`if sk.timing == tm and self.rng.random() < sk.proc: record; apply effects`.
The random draw happens only when the timing matches (Python `and`
short-circuits). -/
def skillStep (T : Tuning) (tm : String) (selfR tgtR : Ref) (se : BS × EngSt) (sk : Skill) :
    BS × EngSt :=
  if sk.timing = tm then
    if (se.2.rng.next).1 < sk.proc then
      let ae := applyEffects T selfR tgtR sk.effects se.1 (se.2.rng.next).2
      (ae.1, { rng := ae.2, triggers := recordTrigger se.2.triggers sk.name })
    else (se.1, { se.2 with rng := (se.2.rng.next).2 })
  else se

/-- One unit's action in the start-timing pass (engine.py lines 156-166). -/
def startAction (T : Tuning) (se : BS × EngSt) (r : Ref) : BS × EngSt :=
  if !(se.1.getU r).is_alive then se
  else if T.confusionSkip && (se.1.getU r).has ("confusion") then se
  else
    match (pickEnemy se.1 r.1.other se.2.rng).1 with
    | none => (se.1, { se.2 with rng := (pickEnemy se.1 r.1.other se.2.rng).2 })
    | some ti =>
        (se.1.getU r).all_skills.foldl (skillStep T ("start") r (r.1.other, ti))
          (se.1, { se.2 with rng := (pickEnemy se.1 r.1.other se.2.rng).2 })

/-- The battle state after one basic attack of the attack pass
(engine.py lines 177-178): damage of the attacker against the already-picked
target, written back floored at 0. -/
def basicAttackState (T : Tuning) (se : BS × EngSt) (r : Ref) (ti : Nat) : BS :=
  se.1.modifyU (r.1.other, ti)
    (damageUpd (physical_damage T (se.1.getU r) (se.1.getU (r.1.other, ti)) 1
      (pickEnemy se.1 r.1.other se.2.rng).2).1)

/-- The rng state after one basic attack of the attack pass. -/
def basicAttackRng (T : Tuning) (se : BS × EngSt) (r : Ref) (ti : Nat) : Rng :=
  (physical_damage T (se.1.getU r) (se.1.getU (r.1.other, ti)) 1
    (pickEnemy se.1 r.1.other se.2.rng).2).2

/-- One unit's action in the attack pass (engine.py lines 169-184): basic
attack on a random living enemy, and — only if that target is still alive —
the `after_attack` skill loop. -/
def attackAction (T : Tuning) (se : BS × EngSt) (r : Ref) : BS × EngSt :=
  if !(se.1.getU r).is_alive then se
  else if T.confusionSkip && (se.1.getU r).has ("confusion") then se
  else
    match (pickEnemy se.1 r.1.other se.2.rng).1 with
    | none => (se.1, { se.2 with rng := (pickEnemy se.1 r.1.other se.2.rng).2 })
    | some ti =>
        if ((basicAttackState T se r ti).getU (r.1.other, ti)).is_alive then
          (se.1.getU r).all_skills.foldl (skillStep T ("after_attack") r (r.1.other, ti))
            (basicAttackState T se r ti,
             { rng := basicAttackRng T se r ti, triggers := se.2.triggers })
        else (basicAttackState T se r ti,
              { rng := basicAttackRng T se r ti, triggers := se.2.triggers })

/-- References of all units, in `all_units = team_a + team_b` order. -/
def allRefs (st : BS) : List Ref :=
  ((List.range st.ta.length).map (fun i => (Side.A, i)))
    ++ ((List.range st.tb.length).map (fun i => (Side.B, i)))

/-- Descending lexicographic comparison of `(spd, tiebreak)` sort keys. -/
def keyGt (p q : Ref × ℚ × ℚ) : Bool :=
  decide (q.2.1 < p.2.1 ∨ (q.2.1 = p.2.1 ∧ q.2.2 < p.2.2))

/-- Turn order (engine.py lines 151-153): all living units keyed by
`(spd, random())` — one tiebreak draw per living unit, consumed in
`all_units` order exactly as `sorted` computes keys — sorted descending,
stably. -/
def computeOrder (st : BS) (rng : Rng) : List Ref × Rng :=
  let alive := (allRefs st).filter (fun r => (st.getU r).is_alive)
  let keyed := alive.foldl (fun acc r =>
      let nx := acc.2.next
      (acc.1 ++ [(r, ((st.getU r).stats.spdV, nx.1))], nx.2)) (([] : List (Ref × ℚ × ℚ)), rng)
  ((sortStable keyGt keyed.1).map Prod.fst, keyed.2)

/-- End-of-turn status tick (engine.py lines 186-188): every living unit's
statuses are decremented and expired ones removed. -/
def tickAll (st : BS) : BS :=
  { ta := st.ta.map (fun u => if u.is_alive then u.tick_statuses_end_of_turn else u),
    tb := st.tb.map (fun u => if u.is_alive then u.tick_statuses_end_of_turn else u) }

/-- Sum of a team's soldiers (engine.py lines 142-143, 193-194). -/
def sumSoldiers (team : List Unit) : Int :=
  (team.map (fun u => u.soldiers)).sum

/-- `Engine._final` (engine.py lines 192-197): loss rates with the zero-initial
guard, and a copy of the engine's accumulated trigger dict.  The (unchanged)
battle state and engine state are returned alongside to model the mutation the
caller observes. -/
def finalize (winner : String) (turns : Int) (aInit bInit : Int) (st : BS) (e : EngSt) :
    BattleResult × BS × EngSt :=
  let aNow := sumSoldiers st.ta
  let bNow := sumSoldiers st.tb
  let aLoss : ℚ := if aInit ≠ 0 then ((aInit - aNow : Int) : ℚ) / (aInit : ℚ) else 0
  let bLoss : ℚ := if bInit ≠ 0 then ((bInit - bNow : Int) : ℚ) / (bInit : ℚ) else 0
  ({ winner := winner, turns := turns, a_loss_rate := aLoss, b_loss_rate := bLoss,
     triggers := e.triggers }, st, e)

/-- The turn loop of `Engine.run_battle` (engine.py lines 145-190), with the
remaining number of loop iterations as fuel (the Python loop runs `turn` from
1 to `max_turns`): pre-turn termination checks — team A checked first — then
turn ordering, the start pass, the attack pass and the status tick. -/
def runTurns (T : Tuning) (aInit bInit : Int) :
    Nat → Int → BS → EngSt → BattleResult × BS × EngSt
  | 0, _, st, e => finalize ("draw") T.maxTurns aInit bInit st e
  | Nat.succ f, turn, st, e =>
    if (aliveIdxs st.ta).isEmpty then finalize ("B") (turn - 1) aInit bInit st e
    else if (aliveIdxs st.tb).isEmpty then finalize ("A") (turn - 1) aInit bInit st e
    else
      let or1 := computeOrder st e.rng
      let se1 := or1.1.foldl (startAction T) (st, { e with rng := or1.2 })
      let se2 := or1.1.foldl (attackAction T) se1
      runTurns T aInit bInit f (turn + 1) (tickAll se2.1) se2.2

/-- `Engine.run_battle` (engine.py lines 139-190).  Returns the result
together with the final (mutated) team lists and engine state. -/
def run_battle (T : Tuning) (e : EngSt) (teamA teamB : List Unit) :
    BattleResult × BS × EngSt :=
  runTurns T (sumSoldiers teamA) (sumSoldiers teamB) T.maxTurns.toNat 1
    { ta := teamA, tb := teamB } e

/-! ### Concrete instances used by witnesses and counterexamples -/

/-- All-zero draw stream: every random() returns 0, every uniform(a,b)
returns a. -/
def zs : Nat → ℚ := fun _ => 0

/-- A concrete rng at the start of the all-zero stream. -/
def rng0 : Rng := { stream := zs, pos := 0 }

/-- A fresh engine state (as built by Engine.__init__). -/
def e9 : EngSt := { rng := rng0, triggers := [] }

/-- A start-timing skill that always procs and has no effects. -/
def skA : Skill :=
  { skill_id := "s1", name := "SkA", slot := "unique", timing := "start", proc := 1, effects := [] }

/-- A start-timing skill that never procs. -/
def skB : Skill :=
  { skill_id := "s2", name := "SkB", slot := "unique", timing := "start", proc := 0, effects := [] }

/-- Concrete attacker unit. -/
def uA : Unit :=
  { unit_id := "a", name := "A1", stats := ⟨10, 0, 0, 1⟩, max_soldiers := 100, soldiers := 100,
    unique_skill := skA, learn20_skill := none, awaken_skill := none, statuses := [] }

/-- Concrete defender unit. -/
def uB : Unit :=
  { unit_id := "b", name := "B1", stats := ⟨0, 0, 0, 0⟩, max_soldiers := 1000, soldiers := 1000,
    unique_skill := skB, learn20_skill := none, awaken_skill := none, statuses := [] }

/-- Concrete unit with `max_soldiers = 0` (a unit that was never fielded). -/
def uZ : Unit :=
  { unit_id := "z", name := "Z", stats := ⟨100, 100, 0, 0⟩, max_soldiers := 0, soldiers := 0,
    unique_skill := skB, learn20_skill := none, awaken_skill := none, statuses := [] }

/-- An all-default tuning dict (every key absent). -/
def T0 : Tuning :=
  { attack_mix_lea := none, defense_factor_physical := none, physical_scale := none,
    defense_factor_strategy := none, strategy_scale := none, heal_scale := none,
    random_min := none, random_max := none, max_turns := none, confusion_skip_action := none }

/-- Tuning with `max_turns = 1`, defaults otherwise. -/
def T9 : Tuning :=
  { T0 with max_turns := some 1 }

/-! ### Formula lemmas -/

/-- Python `int(max(1, x))` equals `max(1, floor(x))`: the argument of the
truncation is ≥ 1, so truncation is flooring, and flooring commutes with the
clamp at 1. -/
theorem pyInt_max_one (x : ℚ) : pyInt (max 1 x) = max 1 ⌊x⌋ := by
  have h0 : (0 : ℚ) ≤ max 1 x := le_trans zero_le_one (le_max_left _ _)
  unfold pyInt
  rw [if_pos h0]
  rcases le_total x 1 with h | h
  · have hfl : (⌊x⌋ : Int) ≤ 1 := by
      have h2 := Int.floor_le_floor (α := ℚ) h
      simpa using h2
    rw [max_eq_left h, Int.floor_one, max_eq_left hfl]
  · have hfl : (1 : Int) ≤ ⌊x⌋ := by
      have h2 := Int.floor_le_floor (α := ℚ) h
      simpa using h2
    rw [max_eq_right h, max_eq_right hfl]

/-- `int(max(1, x)) ≥ 1`. -/
theorem one_le_pyInt_max_one (x : ℚ) : 1 ≤ pyInt (max 1 x) := by
  rw [pyInt_max_one]
  exact le_max_left _ _

/-- The integer returned by `physical_damage`, as a flooring of the real
damage value. -/
theorem physical_damage_fst (T : Tuning) (a d : Unit) (rate : ℚ) (rng : Rng) :
    (physical_damage T a d rate rng).1
      = max 1 ⌊physVal T a d rate * (rng.uniform T.randomMin T.randomMax).1⌋ := by
  unfold physical_damage Rng.uniform Rng.next
  simp [pyInt_max_one]

/-- The integer returned by `strategy_damage`, as a flooring of the real
damage value. -/
theorem strategy_damage_fst (T : Tuning) (a d : Unit) (rate : ℚ) (rng : Rng) :
    (strategy_damage T a d rate rng).1
      = max 1 ⌊stratVal T a d rate * (rng.uniform T.randomMin T.randomMax).1⌋ := by
  unfold strategy_damage Rng.uniform Rng.next
  simp [pyInt_max_one]

/-- Both damage functions return at least 1. -/
theorem one_le_physical_damage (T : Tuning) (a d : Unit) (rate : ℚ) (rng : Rng) :
    1 ≤ (physical_damage T a d rate rng).1 := by
  rw [physical_damage_fst]
  exact le_max_left _ _

/-- `strategy_damage` returns at least 1. -/
theorem one_le_strategy_damage (T : Tuning) (a d : Unit) (rate : ℚ) (rng : Rng) :
    1 ≤ (strategy_damage T a d rate rng).1 := by
  rw [strategy_damage_fst]
  exact le_max_left _ _

/-- C6: for every attacker, defender and rate, both damage functions return
an integer that is at least 1, equals `max(1, floor(realDamage))`, and in
particular equals `floor(realDamage)` whenever the real-valued damage
(base · rate · scale · troopScale · uniformDraw) is at least 1. -/
theorem damage_min_one_floor (T : Tuning) (a d : Unit) (rate : ℚ) (rng : Rng) :
    ((physical_damage T a d rate rng).1
        = max 1 ⌊physVal T a d rate * (rng.uniform T.randomMin T.randomMax).1⌋
      ∧ 1 ≤ (physical_damage T a d rate rng).1
      ∧ (1 ≤ physVal T a d rate * (rng.uniform T.randomMin T.randomMax).1 →
          (physical_damage T a d rate rng).1
            = ⌊physVal T a d rate * (rng.uniform T.randomMin T.randomMax).1⌋))
    ∧ ((strategy_damage T a d rate rng).1
        = max 1 ⌊stratVal T a d rate * (rng.uniform T.randomMin T.randomMax).1⌋
      ∧ 1 ≤ (strategy_damage T a d rate rng).1
      ∧ (1 ≤ stratVal T a d rate * (rng.uniform T.randomMin T.randomMax).1 →
          (strategy_damage T a d rate rng).1
            = ⌊stratVal T a d rate * (rng.uniform T.randomMin T.randomMax).1⌋)) := by
  refine ⟨⟨physical_damage_fst T a d rate rng, one_le_physical_damage T a d rate rng, ?_⟩,
          ⟨strategy_damage_fst T a d rate rng, one_le_strategy_damage T a d rate rng, ?_⟩⟩
  · intro h1
    rw [physical_damage_fst]
    exact max_eq_right (by exact_mod_cast Int.le_floor.mpr (by exact_mod_cast h1))
  · intro h1
    rw [strategy_damage_fst]
    exact max_eq_right (by exact_mod_cast Int.le_floor.mpr (by exact_mod_cast h1))

/-- Witness for C6 at concrete inputs: real damage value 190 ≥ 1, result 190. -/
theorem damage_min_one_floor_witness :
    1 ≤ physVal T0 uA uB 1 * (rng0.uniform T0.randomMin T0.randomMax).1
    ∧ (physical_damage T0 uA uB 1 rng0).1
        = ⌊physVal T0 uA uB 1 * (rng0.uniform T0.randomMin T0.randomMax).1⌋ := by
  have hv : physVal T0 uA uB 1 * (rng0.uniform T0.randomMin T0.randomMax).1 = 190 := by
    with_unfolding_all rfl
  have h1 : 1 ≤ physVal T0 uA uB 1 * (rng0.uniform T0.randomMin T0.randomMax).1 := by
    rw [hv]; norm_num
  exact ⟨h1, (damage_min_one_floor T0 uA uB 1 rng0).1.2.2 h1⟩

/-- C5: `heal` returns the uncapped computed amount, writes back
`min(max_soldiers, soldiers + amount)`, and in particular leaves a target
already at `max_soldiers` unchanged. -/
theorem heal_cap_spec (T : Tuning) (h t : Unit) (rate : ℚ) (rng : Rng) :
    (heal T h t rate rng).1
        = pyInt (max 1 (h.stats.intV * rate * T.healScale * (rng.uniform T.randomMin T.randomMax).1))
    ∧ (heal T h t rate rng).2.1.soldiers
        = min t.max_soldiers (t.soldiers + (heal T h t rate rng).1)
    ∧ (t.soldiers = t.max_soldiers → (heal T h t rate rng).2.1.soldiers = t.soldiers) := by
  have h1 : (heal T h t rate rng).1
      = pyInt (max 1 (h.stats.intV * rate * T.healScale * (rng.uniform T.randomMin T.randomMax).1)) := by
    unfold heal Rng.uniform Rng.next
    simp
  have h2 : (heal T h t rate rng).2.1.soldiers
      = min t.max_soldiers (t.soldiers + (heal T h t rate rng).1) := by
    unfold heal Rng.uniform Rng.next
    simp
  refine ⟨h1, h2, fun hfull => ?_⟩
  have hamt : 1 ≤ (heal T h t rate rng).1 := by
    rw [h1]; exact one_le_pyInt_max_one _
  rw [h2, hfull]
  exact min_eq_left (by linarith)

/-- Witness for C5: a full target (soldiers = max_soldiers = 1000) is left
unchanged while the returned amount is the uncapped 1710. -/
theorem heal_cap_spec_witness :
    (heal T0 uZ uB 1 rng0).2.1.soldiers = uB.soldiers
    ∧ (heal T0 uZ uB 1 rng0).1 = 1710 := by
  refine ⟨(heal_cap_spec T0 uZ uB 1 rng0).2.2 (by with_unfolding_all rfl), ?_⟩
  with_unfolding_all rfl

/-- C3 counterexample: the attacker `uZ` has `max_soldiers = 0`, yet the
troop-scale computed by the damage formulas is 1, not 0 — with default tuning
and an all-zero draw stream, `physical_damage` against `uB` returns
1900 = int(100·20·1·0.95) and `strategy_damage` returns 2090 = int(100·22·1·0.95),
the values obtained with troop-scale 1 (troop-scale 0 would give 1). -/
theorem troopScale_zero_counterexample :
    uZ.max_soldiers = 0 ∧ troopScale uZ = 1 ∧ troopScale uZ ≠ 0
    ∧ (physical_damage T0 uZ uB 1 rng0).1 = 1900
    ∧ (strategy_damage T0 uZ uB 1 rng0).1 = 2090 := by
  have h1 : troopScale uZ = 1 := by with_unfolding_all rfl
  refine ⟨rfl, h1, ?_, by with_unfolding_all rfl, by with_unfolding_all rfl⟩
  rw [h1]
  norm_num

/-- C3 amended: for an attacker with `max_soldiers = 0` the troop-scale
factor is 1.0 (not 0.0), and both damage formulas evaluate with that factor —
total functions, no division error. -/
theorem troopScale_zero_max (T : Tuning) (a d : Unit) (rate : ℚ) (rng : Rng)
    (hm : a.max_soldiers = 0) :
    troopScale a = 1
    ∧ (physical_damage T a d rate rng).1
        = max 1 ⌊max 0 (a.stats.strV + T.attackMixLea * a.stats.leaV - T.defFacPhysical * d.stats.leaV)
            * rate * T.physicalScale * 1 * (rng.uniform T.randomMin T.randomMax).1⌋
    ∧ (strategy_damage T a d rate rng).1
        = max 1 ⌊max 0 (a.stats.intV - T.defFacStrategy * d.stats.intV)
            * rate * T.strategyScale * 1 * (rng.uniform T.randomMin T.randomMax).1⌋ := by
  have h1 : troopScale a = 1 := by simp [troopScale, hm]
  refine ⟨h1, ?_, ?_⟩
  · rw [physical_damage_fst]
    unfold physVal
    rw [h1]
  · rw [strategy_damage_fst]
    unfold stratVal
    rw [h1]

/-- Witness for the amended C3 at the concrete zero-max attacker. -/
theorem troopScale_zero_max_witness :
    uZ.max_soldiers = 0 ∧ troopScale uZ = 1 :=
  ⟨rfl, (troopScale_zero_max T0 uZ uB 1 rng0 rfl).1⟩

/-! ### Association-list lemmas for statuses and triggers -/

/-- Updating the entry keyed `nm` in place changes `slookup nm` by the update
function. -/
theorem slookup_map_update (nm : String) (f : α → α) :
    ∀ l : List (String × α),
      slookup nm (l.map (fun p => if p.1 = nm then (p.1, f p.2) else p)) = (slookup nm l).map f := by
  intro l
  induction l with
  | nil => rfl
  | cons p ps ih =>
    by_cases h : p.1 = nm
    · simp [slookup, h]
    · simp [slookup, h, ih]

/-- Updating the entry keyed `nm` in place does not change other keys. -/
theorem slookup_map_update_ne (k nm : String) (hk : k ≠ nm) (f : α → α) :
    ∀ l : List (String × α),
      slookup k (l.map (fun p => if p.1 = nm then (p.1, f p.2) else p)) = slookup k l := by
  intro l
  induction l with
  | nil => rfl
  | cons p ps ih =>
    by_cases h : p.1 = nm
    · have hnk : ¬ nm = k := fun hc => hk hc.symm
      simp [slookup, h, hnk, ih]
    · by_cases h2 : p.1 = k
      · simp [slookup, h, h2, hk]
      · simp [slookup, h, h2, ih]

/-- Lookup past a prefix that does not contain the key. -/
theorem slookup_append (k : String) (l q : List (String × α)) (h : slookup k l = none) :
    slookup k (l ++ q) = slookup k q := by
  induction l with
  | nil => rfl
  | cons p ps ih =>
    by_cases hp : p.1 = k
    · simp [slookup, hp] at h
    · simp [slookup, hp] at h ⊢
      exact ih h

/-- C7: re-applying a status refreshes `turns_left` to the max of old and new
and adds stacks capped at 99, leaving other statuses untouched; applying a
fresh status appends a new entry with the given turns and stacks. -/
theorem add_status_spec (u : Unit) (nm : String) (turns stacksN : Int) :
    (∀ st0, slookup nm u.statuses = some st0 →
        slookup nm (u.add_status nm turns stacksN).statuses
          = some { st0 with turns_left := max st0.turns_left turns,
                            stacksN := min (st0.stacksN + stacksN) 99 }
        ∧ ∀ k, k ≠ nm →
            slookup k (u.add_status nm turns stacksN).statuses = slookup k u.statuses)
    ∧ (slookup nm u.statuses = none →
        (u.add_status nm turns stacksN).statuses
          = u.statuses ++ [(nm, { name := nm, turns_left := turns, stacksN := stacksN })]) := by
  constructor
  · intro st0 h
    unfold Unit.add_status
    rw [h]
    dsimp only
    constructor
    · rw [slookup_map_update nm (statusUpd turns stacksN), h]
      rfl
    · intro k hk
      exact slookup_map_update_ne k nm hk (statusUpd turns stacksN) u.statuses
  · intro h
    unfold Unit.add_status
    rw [h]

/-- A concrete carried status for the C7 witness. -/
def stC : Status := { name := "x", turns_left := 2, stacksN := 1 }

/-- A concrete unit carrying status "x" for the C7 witness. -/
def uC : Unit := { defUnit with statuses := [("x", stC)] }

/-- Witness for C7: re-application against a carried status (max 2 5 = 5,
min (1+3) 99 = 4) and a fresh application appending an entry. -/
theorem add_status_spec_witness :
    slookup ("x") (uC.add_status ("x") 5 3).statuses
        = some { name := "x", turns_left := 5, stacksN := 4 }
    ∧ (uC.add_status ("y") 5 3).statuses
        = uC.statuses ++ [("y", { name := "y", turns_left := 5, stacksN := 3 })] := by
  constructor
  · have h := ((add_status_spec uC "x" 5 3).1 stC (by with_unfolding_all rfl)).1
    rw [h]
    with_unfolding_all rfl
  · exact (add_status_spec uC "y" 5 3).2 (by with_unfolding_all rfl)

/-! ### C1: pre-turn termination check -/

/-- C1 counterexample: with both teams empty, team B has zero living units at
the pre-turn termination check of turn 1, yet `run_battle` returns winner "B"
with `turns = 0` — the team-A-empty check fires first (engine.py line 146), so
the claimed winner "A" is wrong in the simultaneous-wipe case. -/
theorem teamB_dead_winner_counterexample :
    (aliveIdxs (([] : List Unit))).isEmpty = true
    ∧ (run_battle T0 e9 [] []).1.winner = "B"
    ∧ ¬ ((run_battle T0 e9 [] []).1.winner = "A")
    ∧ (run_battle T0 e9 [] []).1.turns = 0 := by
  have hw : (run_battle T0 e9 [] []).1.winner = "B" := by with_unfolding_all rfl
  refine ⟨rfl, hw, ?_, by with_unfolding_all rfl⟩
  rw [hw]
  decide

/-- C1 (amended): at the pre-turn termination check of a turn — the head of a
`runTurns` iteration that still has fuel, with turn counter `k` (in
`run_battle`, turn `k` of `1 ≤ k ≤ max_turns` is reached exactly with fuel
`max_turns - k + 1 ≥ 1`) — if team B has zero living units while team A still
has at least one, the battle ends right there with winner "A" and
`turns = k - 1`. -/
theorem teamB_dead_winner_A (T : Tuning) (aInit bInit : Int) (f : Nat) (k : Int)
    (st : BS) (e : EngSt)
    (hb : (aliveIdxs st.tb).isEmpty = true) (ha : (aliveIdxs st.ta).isEmpty = false) :
    (runTurns T aInit bInit (Nat.succ f) k st e).1.winner = "A"
    ∧ (runTurns T aInit bInit (Nat.succ f) k st e).1.turns = k - 1 := by
  constructor
  · simp [runTurns, ha, hb, finalize]
  · simp [runTurns, ha, hb, finalize]

/-- Witness for the amended C1: team B already wiped at the check of turn 3
with fuel remaining gives winner "A", turns 2. -/
theorem teamB_dead_winner_A_witness :
    (runTurns T0 100 0 1 3 { ta := [uA], tb := [] } e9).1.winner = "A"
    ∧ (runTurns T0 100 0 1 3 { ta := [uA], tb := [] } e9).1.turns = 3 - 1 :=
  teamB_dead_winner_A T0 100 0 0 3 { ta := [uA], tb := [] } e9
    (by with_unfolding_all rfl) (by with_unfolding_all rfl)

/-! ### C8: after-attack skills require a surviving target -/

/-- C8: in a unit's attack action, when the basic attack leaves the picked
target dead, the action ends immediately after the damage write-back: the
resulting state is exactly the post-damage state and the engine's trigger
counts are unchanged — no `after_attack` skill is evaluated, recorded or
applied.  (The `after_attack` loop runs only under the target-alive test,
engine.py line 180.) -/
theorem after_attack_needs_living_target (T : Tuning) (st : BS) (e : EngSt) (r : Ref)
    (ti : Nat) (rng1 : Rng) (dmg : Int) (rng2 : Rng)
    (halive : (st.getU r).is_alive = true)
    (hconf : (T.confusionSkip && (st.getU r).has ("confusion")) = false)
    (hpick : pickEnemy st r.1.other e.rng = (some ti, rng1))
    (hdmg : physical_damage T (st.getU r) (st.getU (r.1.other, ti)) 1 rng1 = (dmg, rng2))
    (hdead : ((st.modifyU (r.1.other, ti) (damageUpd dmg)).getU (r.1.other, ti)).is_alive = false) :
    attackAction T (st, e) r
      = (st.modifyU (r.1.other, ti) (damageUpd dmg), { rng := rng2, triggers := e.triggers }) := by
  simp [attackAction, basicAttackState, basicAttackRng, halive, hconf, hpick, hdmg, hdead]

/-- Concrete nearly-dead defender for the C8 witness. -/
def uBs : Unit := { uB with soldiers := 1 }

/-- Concrete one-on-one battle state for the C8 witness. -/
def stW : BS := { ta := [uA], tb := [uBs] }

/-- Witness for C8: the 190-damage basic attack kills the 1-soldier target;
the action stops at the post-damage state with triggers untouched. -/
theorem after_attack_needs_living_target_witness :
    attackAction T0 (stW, e9) (Side.A, 0)
      = (stW.modifyU (Side.B, 0) (damageUpd 190),
         { rng := { stream := zs, pos := 2 }, triggers := [] }) :=
  after_attack_needs_living_target T0 stW e9 (Side.A, 0) 0 { stream := zs, pos := 1 } 190
    { stream := zs, pos := 2 } (by with_unfolding_all rfl) (by with_unfolding_all rfl)
    (by with_unfolding_all rfl) (by with_unfolding_all rfl) (by with_unfolding_all rfl)

/-! ### C9: trigger counts persist across battles on one Engine -/

set_option maxRecDepth 8000 in
/-- C9: an `Engine`'s trigger map is initialised once (engine.py line 71) and
never reset by `run_battle`; invoking `run_battle` twice on the same engine
state with fresh copies of the same units makes the second result report the
accumulated count 2 for the skill that triggered once per battle, so
per-battle counts require a fresh engine per battle. -/
theorem triggers_accumulate_across_battles :
    (run_battle T9 e9 [uA] [uB]).1.triggers = [("SkA", 1)]
    ∧ (run_battle T9 (run_battle T9 e9 [uA] [uB]).2.2 [uA] [uB]).1.triggers = [("SkA", 2)] := by
  constructor
  · with_unfolding_all rfl
  · with_unfolding_all rfl

/-! ### Generic list and state-access lemmas -/

/-- Fold preservation: an invariant closed under every step of a left fold
holds of the fold. -/
theorem foldl_pres {β : Type u_1} {α : Type u_2} (P : β → Prop) (f : β → α → β) :
    ∀ (l : List α) (b : β), P b → (∀ (b' : β) (a : α), a ∈ l → P b' → P (f b' a)) →
      P (l.foldl f b)
  | [], _, hb, _ => hb
  | x :: xs, b, hb, hs =>
      foldl_pres P f xs (f b x) (hs b x (List.mem_cons_self x xs) hb)
        (fun b' a ha hb' => hs b' a (List.mem_cons_of_mem x ha) hb')

/-- Membership after `insStable`. -/
theorem mem_insStable (lt : α → α → Bool) (x : α) :
    ∀ (l : List α) (a : α), a ∈ insStable lt x l → a = x ∨ a ∈ l := by
  intro l
  induction l with
  | nil =>
    intro a ha
    simp [insStable] at ha
    exact Or.inl ha
  | cons y ys ih =>
    intro a ha
    unfold insStable at ha
    by_cases h : lt y x
    · rw [if_pos h] at ha
      rcases List.mem_cons.mp ha with h1 | h1
      · exact Or.inr (List.mem_cons.mpr (Or.inl h1))
      · rcases ih a h1 with h2 | h2
        · exact Or.inl h2
        · exact Or.inr (List.mem_cons.mpr (Or.inr h2))
    · rw [if_neg h] at ha
      rcases List.mem_cons.mp ha with h1 | h1
      · exact Or.inl h1
      · exact Or.inr h1

/-- Membership after `sortStable`. -/
theorem mem_sortStable (lt : α → α → Bool) :
    ∀ (l : List α) (a : α), a ∈ sortStable lt l → a ∈ l := by
  intro l
  induction l with
  | nil => intro a ha; exact ha
  | cons y ys ih =>
    intro a ha
    rcases mem_insStable lt y (sortStable lt ys) a ha with h | h
    · rw [h]; exact List.mem_cons_self y ys
    · exact List.mem_cons_of_mem y (ih a h)

/-- Out-of-range `List.set` is the identity. -/
theorem set_oob {α : Type u_1} (b : α) :
    ∀ (l : List α) (i : Nat), l.length ≤ i → l.set i b = l
  | [], _, _ => rfl
  | _ :: xs, 0, h => absurd h (by simp)
  | x :: xs, i + 1, h => by
      simp [List.set]
      exact set_oob b xs i (by simpa using h)

/-- `getD` after an in-range `set` at the same index. -/
theorem getD_set_self {α : Type u_1} (d b : α) :
    ∀ (l : List α) (i : Nat), i < l.length → (l.set i b).getD i d = b
  | [], i, h => absurd h (by simp)
  | x :: xs, 0, _ => rfl
  | x :: xs, i + 1, h => by
      simp only [List.set, List.getD_cons_succ]
      exact getD_set_self d b xs i (by simpa using h)

/-- `getD` after a `set` at a different index. -/
theorem getD_set_ne {α : Type u_1} (d b : α) :
    ∀ (l : List α) (i j : Nat), i ≠ j → (l.set i b).getD j d = l.getD j d
  | [], _, _, _ => by simp
  | x :: xs, 0, 0, h => absurd rfl h
  | x :: xs, 0, j + 1, _ => by simp [List.set, List.getD]
  | x :: xs, i + 1, 0, _ => by simp [List.set, List.getD]
  | x :: xs, i + 1, j + 1, h => by
      simp only [List.set, List.getD_cons_succ]
      exact getD_set_ne d b xs i j (fun hc => h (by rw [hc]))

/-- A `getD` value is a member or the default. -/
theorem getD_mem_or {α : Type u_1} (d : α) :
    ∀ (l : List α) (i : Nat), l.getD i d ∈ l ∨ l.getD i d = d
  | [], i => Or.inr (by simp)
  | x :: xs, 0 => Or.inl (List.mem_cons_self x xs)
  | x :: xs, i + 1 => by
      rcases getD_mem_or d xs i with h | h
      · exact Or.inl (List.mem_cons_of_mem x (by simpa using h))
      · exact Or.inr (by simpa using h)

/-- `getD` through a `map` of a projection-preserving function. -/
theorem getD_map_proj {α : Type u_1} (g : Unit → α) (f : Unit → Unit)
    (hf : ∀ u, g (f u) = g u) (hd : g (f defUnit) = g defUnit) :
    ∀ (l : List Unit) (i : Nat), g ((l.map f).getD i defUnit) = g (l.getD i defUnit)
  | [], i => by simp
  | u :: l, 0 => hf u
  | u :: l, i + 1 => by
      simp only [List.map_cons, List.getD_cons_succ]
      exact getD_map_proj g f hf hd l i

/-- Unchanged team under `setTeam` of the other side. -/
theorem team_setTeam_other (st : BS) (s s' : Side) (l : List Unit) (h : s ≠ s') :
    (st.setTeam s l).team s' = st.team s' := by
  cases s <;> cases s' <;> first | exact absurd rfl h | rfl

/-- The team written by `setTeam`. -/
theorem team_setTeam_self (st : BS) (s : Side) (l : List Unit) :
    (st.setTeam s l).team s = l := by
  cases s <;> rfl

/-- Writing a team back unchanged is the identity. -/
theorem setTeam_self (st : BS) (s : Side) : st.setTeam s (st.team s) = st := by
  cases s <;> rfl

/-- Out-of-range `modifyU` is the identity. -/
theorem modifyU_oob (st : BS) (r : Ref) (f : Unit → Unit)
    (h : (st.team r.1).length ≤ r.2) : st.modifyU r f = st := by
  unfold BS.modifyU
  rw [set_oob _ _ _ h, setTeam_self]

/-- In-range `modifyU` applies the update at the reference. -/
theorem getU_modifyU_self (st : BS) (r : Ref) (f : Unit → Unit)
    (h : r.2 < (st.team r.1).length) : (st.modifyU r f).getU r = f (st.getU r) := by
  unfold BS.modifyU BS.getU
  rw [team_setTeam_self, getD_set_self _ _ _ _ h]

/-- `modifyU` leaves every other reference unchanged. -/
theorem getU_modifyU_ne (st : BS) (r r' : Ref) (f : Unit → Unit) (h : r' ≠ r) :
    (st.modifyU r f).getU r' = st.getU r' := by
  unfold BS.modifyU BS.getU
  by_cases hs : r.1 = r'.1
  · rw [← hs, team_setTeam_self]
    have hne : r.2 ≠ r'.2 := by
      intro hc
      exact h (Prod.ext hs.symm hc.symm)
    rw [getD_set_ne _ _ _ _ _ hne, hs]
  · rw [team_setTeam_other _ _ _ _ hs]

/-! ### The soldier-bounds invariant (C2) -/

/-- Per-unit soldier bounds: `0 ≤ soldiers ≤ max_soldiers`. -/
def uInv (u : Unit) : Prop := 0 ≤ u.soldiers ∧ u.soldiers ≤ u.max_soldiers

/-- All unit objects of a battle state satisfy the soldier bounds (the default
a dangling reference resolves to satisfies them trivially). -/
def BSInv (st : BS) : Prop := ∀ r : Ref, uInv (st.getU r)

/-- The placeholder unit satisfies the bounds. -/
theorem uInv_defUnit : uInv defUnit := ⟨le_refl 0, le_refl 0⟩

/-- `modifyU` with a bounds-preserving update preserves `BSInv`. -/
theorem BSInv_modifyU (st : BS) (r : Ref) (f : Unit → Unit)
    (hf : ∀ u, uInv u → uInv (f u)) (h : BSInv st) : BSInv (st.modifyU r f) := by
  intro r'
  by_cases hrr : r' = r
  · subst hrr
    by_cases hlen : r'.2 < (st.team r'.1).length
    · rw [getU_modifyU_self _ _ _ hlen]
      exact hf _ (h r')
    · rw [modifyU_oob _ _ _ (le_of_not_lt hlen)]
      exact h r'
  · rw [getU_modifyU_ne _ _ _ _ hrr]
    exact h r'

/-- A nonnegative damage write-back preserves the bounds. -/
theorem uInv_damageUpd (d : Int) (hd : 0 ≤ d) (u : Unit) (h : uInv u) :
    uInv (damageUpd d u) := by
  unfold damageUpd uInv at *
  constructor
  · exact le_max_left 0 _
  · simp only
    omega

/-- `add_status` does not touch `soldiers`. -/
theorem add_status_soldiers (u : Unit) (nm : String) (t s : Int) :
    (u.add_status nm t s).soldiers = u.soldiers := by
  unfold Unit.add_status
  cases slookup nm u.statuses <;> rfl

/-- `add_status` does not touch `max_soldiers`. -/
theorem add_status_max (u : Unit) (nm : String) (t s : Int) :
    (u.add_status nm t s).max_soldiers = u.max_soldiers := by
  unfold Unit.add_status
  cases slookup nm u.statuses <;> rfl

/-- `add_status` preserves the bounds. -/
theorem uInv_add_status (u : Unit) (nm : String) (t s : Int) (h : uInv u) :
    uInv (u.add_status nm t s) := by
  unfold uInv
  rw [add_status_soldiers, add_status_max]
  exact h

/-- The unit written back by `heal`. -/
theorem heal_unit_eq (T : Tuning) (h t : Unit) (rate : ℚ) (rng : Rng) :
    (heal T h t rate rng).2.1
      = { t with soldiers := min t.max_soldiers (t.soldiers + (heal T h t rate rng).1) } := by
  unfold heal
  rfl

/-- The amount returned by `heal` is at least 1. -/
theorem one_le_heal_amt (T : Tuning) (h t : Unit) (rate : ℚ) (rng : Rng) :
    1 ≤ (heal T h t rate rng).1 := by
  unfold heal
  exact one_le_pyInt_max_one _

/-- The heal write-back preserves the bounds. -/
theorem uInv_heal (T : Tuning) (h t : Unit) (rate : ℚ) (rng : Rng) (ht : uInv t) :
    uInv (heal T h t rate rng).2.1 := by
  have hamt := one_le_heal_amt T h t rate rng
  rw [heal_unit_eq]
  unfold uInv at *
  simp only
  omega

/-- `healEffect` preserves the soldier bounds on every unit. -/
theorem healEffect_BSInv (T : Tuning) (selfR : Ref) (eff : Effect) (st : BS) (rng : Rng)
    (h : BSInv st) : BSInv (healEffect T selfR eff st rng).1 := by
  unfold healEffect
  dsimp only
  apply foldl_pres (fun se2 : BS × Rng => BSInv se2.1)
  · exact h
  · intro se2 tr _ h2
    exact BSInv_modifyU _ _ _ (fun _ _ => uInv_heal _ _ _ _ _ (h2 tr)) h2

/-- `statusEffect` preserves the soldier bounds on every unit. -/
theorem statusEffect_BSInv (tgtR : Ref) (eff : Effect) (st : BS) (rng : Rng)
    (h : BSInv st) : BSInv (statusEffect tgtR eff st rng).1 := by
  unfold statusEffect
  split
  · exact BSInv_modifyU _ _ _ (fun u hu => uInv_add_status u _ _ _ hu) h
  · exact h

/-- `applyEffect` preserves the soldier bounds on every unit. -/
theorem applyEffect_BSInv (T : Tuning) (selfR tgtR : Ref) (se : BS × Rng) (eff : Effect)
    (h : BSInv se.1) : BSInv (applyEffect T selfR tgtR se eff).1 := by
  unfold applyEffect
  split
  · exact BSInv_modifyU _ _ _
      (uInv_damageUpd _ (le_trans zero_le_one (one_le_physical_damage _ _ _ _ _))) h
  split
  · exact BSInv_modifyU _ _ _
      (uInv_damageUpd _ (le_trans zero_le_one (one_le_strategy_damage _ _ _ _ _))) h
  split
  · exact healEffect_BSInv T selfR eff se.1 _ h
  split
  · exact statusEffect_BSInv tgtR eff se.1 _ h
  · exact h

/-- `applyEffects` preserves the soldier bounds. -/
theorem applyEffects_BSInv (T : Tuning) (selfR tgtR : Ref) (effs : List Effect)
    (st : BS) (rng : Rng) (h : BSInv st) :
    BSInv (applyEffects T selfR tgtR effs st rng).1 := by
  unfold applyEffects
  apply foldl_pres (fun se : BS × Rng => BSInv se.1)
  · exact h
  · exact fun se eff _ h2 => applyEffect_BSInv T selfR tgtR se eff h2

/-- `skillStep` preserves the soldier bounds. -/
theorem skillStep_BSInv (T : Tuning) (tm : String) (selfR tgtR : Ref)
    (se : BS × EngSt) (sk : Skill) (h : BSInv se.1) :
    BSInv (skillStep T tm selfR tgtR se sk).1 := by
  unfold skillStep
  split
  · split
    · exact applyEffects_BSInv T selfR tgtR sk.effects se.1 _ h
    · exact h
  · exact h

/-- `startAction` preserves the soldier bounds. -/
theorem startAction_BSInv (T : Tuning) (se : BS × EngSt) (r : Ref) (h : BSInv se.1) :
    BSInv (startAction T se r).1 := by
  unfold startAction
  split
  · exact h
  split
  · exact h
  split
  · exact h
  · apply foldl_pres (fun se2 : BS × EngSt => BSInv se2.1)
    · exact h
    · exact fun se2 sk _ h2 => skillStep_BSInv T _ _ _ se2 sk h2

/-- `attackAction` preserves the soldier bounds. -/
theorem attackAction_BSInv (T : Tuning) (se : BS × EngSt) (r : Ref) (h : BSInv se.1) :
    BSInv (attackAction T se r).1 := by
  unfold attackAction
  split
  · exact h
  split
  · exact h
  split
  · exact h
  · rename_i ti heq
    have hdmg : BSInv (basicAttackState T se r ti) := by
      unfold basicAttackState
      exact BSInv_modifyU _ _ _
        (uInv_damageUpd _ (le_trans zero_le_one (one_le_physical_damage _ _ _ _ _))) h
    split
    · apply foldl_pres (fun se2 : BS × EngSt => BSInv se2.1)
      · exact hdmg
      · exact fun se2 sk _ h2 => skillStep_BSInv T _ _ _ se2 sk h2
    · exact hdmg

/-- The end-of-turn tick does not touch `soldiers`. -/
theorem tickAll_soldiers (st : BS) (r : Ref) :
    ((tickAll st).getU r).soldiers = (st.getU r).soldiers := by
  rcases r with ⟨s, i⟩
  have hf : ∀ u : Unit,
      (if u.is_alive then u.tick_statuses_end_of_turn else u).soldiers = u.soldiers := by
    intro u
    split <;> rfl
  cases s
  · exact getD_map_proj (fun u => u.soldiers) _ hf (hf defUnit) st.ta i
  · exact getD_map_proj (fun u => u.soldiers) _ hf (hf defUnit) st.tb i

/-- The end-of-turn tick does not touch `max_soldiers`. -/
theorem tickAll_max (st : BS) (r : Ref) :
    ((tickAll st).getU r).max_soldiers = (st.getU r).max_soldiers := by
  rcases r with ⟨s, i⟩
  have hf : ∀ u : Unit,
      (if u.is_alive then u.tick_statuses_end_of_turn else u).max_soldiers = u.max_soldiers := by
    intro u
    split <;> rfl
  cases s
  · exact getD_map_proj (fun u => u.max_soldiers) _ hf (hf defUnit) st.ta i
  · exact getD_map_proj (fun u => u.max_soldiers) _ hf (hf defUnit) st.tb i

/-- The end-of-turn tick preserves the soldier bounds. -/
theorem tickAll_BSInv (st : BS) (h : BSInv st) : BSInv (tickAll st) := by
  intro r
  unfold uInv
  rw [tickAll_soldiers, tickAll_max]
  exact h r

/-- The whole turn loop preserves the soldier bounds. -/
theorem runTurns_BSInv (T : Tuning) (aInit bInit : Int) :
    ∀ (f : Nat) (k : Int) (st : BS) (e : EngSt), BSInv st →
      BSInv (runTurns T aInit bInit f k st e).2.1 := by
  intro f
  induction f with
  | zero => intro k st e h; exact h
  | succ f ih =>
    intro k st e h
    unfold runTurns
    split
    · exact h
    split
    · exact h
    · apply ih
      apply tickAll_BSInv
      apply foldl_pres (fun se2 : BS × EngSt => BSInv se2.1)
      · apply foldl_pres (fun se2 : BS × EngSt => BSInv se2.1)
        · exact h
        · exact fun se2 r _ h2 => startAction_BSInv T se2 r h2
      · exact fun se2 r _ h2 => attackAction_BSInv T se2 r h2

/-- C2: starting from a battle state in which every unit satisfies
`0 ≤ soldiers ≤ max_soldiers`, every soldier mutation performed by the engine
preserves the bounds — the damage write-back (used by skill damage and the
basic attack, with its ≥ 0 damage), the heal write-back, every single effect
application, and consequently the whole of `run_battle`. -/
theorem soldier_bounds_invariant (T : Tuning) :
    (∀ (d : Int) (u : Unit), 0 ≤ d → uInv u → uInv (damageUpd d u))
    ∧ (∀ (h t : Unit) (rate : ℚ) (rng : Rng), uInv t → uInv (heal T h t rate rng).2.1)
    ∧ (∀ (selfR tgtR : Ref) (se : BS × Rng) (eff : Effect), BSInv se.1 →
        BSInv (applyEffect T selfR tgtR se eff).1)
    ∧ (∀ (e : EngSt) (teamA teamB : List Unit), BSInv { ta := teamA, tb := teamB } →
        BSInv (run_battle T e teamA teamB).2.1) := by
  refine ⟨fun d u hd hu => uInv_damageUpd d hd u hu,
          fun h t rate rng ht => uInv_heal T h t rate rng ht,
          fun selfR tgtR se eff h => applyEffect_BSInv T selfR tgtR se eff h,
          fun e teamA teamB h => ?_⟩
  unfold run_battle
  exact runTurns_BSInv T _ _ _ _ _ _ h

/-- Bounds check for a concrete two-unit battle state. -/
theorem BSInv_uA_uB : BSInv { ta := [uA], tb := [uB] } := by
  rintro ⟨s, i⟩
  have h0 : uInv defUnit := uInv_defUnit
  have hA : uInv uA := ⟨by norm_num [uA], by norm_num [uA]⟩
  have hB : uInv uB := ⟨by norm_num [uB], by norm_num [uB]⟩
  cases s <;> rcases i with _ | i <;>
    simp [BS.getU, BS.team, List.getD] <;> first | exact hA | exact hB | exact h0

/-- Witness for C2: concrete damage update, heal update and a full battle from
a concrete in-bounds state keep all bounds. -/
theorem soldier_bounds_invariant_witness :
    uInv (damageUpd 5 uA)
    ∧ uInv (heal T0 uA uB 1 rng0).2.1
    ∧ BSInv (run_battle T0 e9 [uA] [uB]).2.1 := by
  refine ⟨(soldier_bounds_invariant T0).1 5 uA (by norm_num)
      ⟨by norm_num [uA], by norm_num [uA]⟩,
    (soldier_bounds_invariant T0).2.1 uA uB 1 rng0 ⟨by norm_num [uB], by norm_num [uB]⟩,
    (soldier_bounds_invariant T0).2.2.2 e9 [uA] [uB] BSInv_uA_uB⟩

/-! ### Dead units stay dead (C10) -/

/-- Dead-preservation between two battle states: every reference whose unit
has 0 soldiers in the first state still has 0 soldiers in the second. -/
def zeroPres (st0 st1 : BS) : Prop :=
  ∀ r : Ref, (st0.getU r).soldiers = 0 → (st1.getU r).soldiers = 0

/-- `zeroPres` is reflexive. -/
theorem zeroPres_refl (st : BS) : zeroPres st st := fun _ h => h

/-- `zeroPres` is transitive. -/
theorem zeroPres_trans {a b c : BS} (h1 : zeroPres a b) (h2 : zeroPres b c) : zeroPres a c :=
  fun r hr => h2 r (h1 r hr)

/-- A nonnegative damage write-back keeps dead units dead (damage floors at 0)
and leaves all other units untouched. -/
theorem zeroPres_damage (st0 cur : BS) (hz : zeroPres st0 cur) (tgt : Ref) (d : Int)
    (hd : 0 ≤ d) : zeroPres st0 (cur.modifyU tgt (damageUpd d)) := by
  intro r hr
  by_cases hrt : r = tgt
  · subst hrt
    by_cases hlen : r.2 < (cur.team r.1).length
    · have h0 := hz r hr
      rw [getU_modifyU_self _ _ _ hlen]
      show max 0 ((cur.getU r).soldiers - d) = 0
      omega
    · rw [modifyU_oob _ _ _ (le_of_not_lt hlen)]
      exact hz r hr
  · rw [getU_modifyU_ne _ _ _ _ hrt]
    exact hz r hr

/-- A modification that does not change `soldiers` preserves dead units. -/
theorem zeroPres_soldierPres (st0 cur : BS) (hz : zeroPres st0 cur) (tgt : Ref)
    (f : Unit → Unit) (hf : ∀ u, (f u).soldiers = u.soldiers) :
    zeroPres st0 (cur.modifyU tgt f) := by
  intro r hr
  by_cases hrt : r = tgt
  · subst hrt
    by_cases hlen : r.2 < (cur.team r.1).length
    · rw [getU_modifyU_self _ _ _ hlen, hf]
      exact hz r hr
    · rw [modifyU_oob _ _ _ (le_of_not_lt hlen)]
      exact hz r hr
  · rw [getU_modifyU_ne _ _ _ _ hrt]
    exact hz r hr

/-- Modifying a reference that is not dead in the baseline state preserves
dead units regardless of the update. -/
theorem zeroPres_notdead_target (st0 cur : BS) (hz : zeroPres st0 cur) (tgt : Ref)
    (f : Unit → Unit) (hne : (st0.getU tgt).soldiers ≠ 0) :
    zeroPres st0 (cur.modifyU tgt f) := by
  intro r hr
  by_cases hrt : r = tgt
  · subst hrt
    exact absurd hr hne
  · rw [getU_modifyU_ne _ _ _ _ hrt]
    exact hz r hr

/-- Every index selected by `_pick_allies_lowest` refers to a living unit:
ally heal targets are filtered to living allies. -/
theorem pick_allies_lowest_alive (team : List Unit) (count : Int) :
    ∀ i ∈ pick_allies_lowest team count, (team.getD i defUnit).is_alive = true := by
  intro i hi
  unfold pick_allies_lowest at hi
  dsimp only at hi
  have h1 := List.mem_of_mem_take hi
  have h2 := mem_sortStable _ _ _ h1
  unfold aliveIdxs at h2
  exact (List.mem_filter.mp h2).2

/-- `healEffect` preserves dead units, given that the caster was not dead in
the baseline (action-start) state: ally targets are alive-filtered, and the
self target is the live caster. -/
theorem healEffect_zeroPres (T : Tuning) (selfR : Ref) (eff : Effect) (st0 : BS)
    (hself : (st0.getU selfR).soldiers ≠ 0) (st : BS) (rng : Rng)
    (hz : zeroPres st0 st) : zeroPres st0 (healEffect T selfR eff st rng).1 := by
  unfold healEffect
  dsimp only
  split
  · apply foldl_pres (fun se2 : BS × Rng => zeroPres st0 se2.1)
    · exact hz
    · intro se2 tr htr h2
      rcases List.mem_map.mp htr with ⟨i, hi, rfl⟩
      refine zeroPres_notdead_target st0 se2.1 h2 (selfR.1, i) _ ?_
      intro h0
      have hcur := hz (selfR.1, i) h0
      have halive : ((st.team selfR.1).getD i defUnit).soldiers > 0 := by
        have h3 := pick_allies_lowest_alive (st.team selfR.1) (eff.count.getD 1) i hi
        unfold Unit.is_alive at h3
        exact of_decide_eq_true h3
      have hgu : (st.getU (selfR.1, i)).soldiers
          = ((st.team selfR.1).getD i defUnit).soldiers := rfl
      rw [hgu] at hcur
      omega
  · apply foldl_pres (fun se2 : BS × Rng => zeroPres st0 se2.1)
    · exact hz
    · intro se2 tr htr h2
      have htr2 : tr = selfR := by simpa using htr
      subst htr2
      exact zeroPres_notdead_target st0 se2.1 h2 tr _ hself

/-- `statusEffect` preserves dead units (it never touches `soldiers`). -/
theorem statusEffect_zeroPres (tgtR : Ref) (eff : Effect) (st0 st : BS) (rng : Rng)
    (hz : zeroPres st0 st) : zeroPres st0 (statusEffect tgtR eff st rng).1 := by
  unfold statusEffect
  split
  · exact zeroPres_soldierPres st0 st hz tgtR _ (fun u => add_status_soldiers u _ _ _)
  · exact hz

/-- `applyEffect` preserves dead units, given a live caster in the baseline. -/
theorem applyEffect_zeroPres (T : Tuning) (selfR tgtR : Ref) (st0 : BS)
    (hself : (st0.getU selfR).soldiers ≠ 0) (se : BS × Rng) (eff : Effect)
    (hz : zeroPres st0 se.1) : zeroPres st0 (applyEffect T selfR tgtR se eff).1 := by
  unfold applyEffect
  split
  · exact zeroPres_damage st0 se.1 hz tgtR _
      (le_trans zero_le_one (one_le_physical_damage _ _ _ _ _))
  split
  · exact zeroPres_damage st0 se.1 hz tgtR _
      (le_trans zero_le_one (one_le_strategy_damage _ _ _ _ _))
  split
  · exact healEffect_zeroPres T selfR eff st0 hself se.1 _ hz
  split
  · exact statusEffect_zeroPres tgtR eff st0 se.1 _ hz
  · exact hz

/-- `applyEffects` preserves dead units, given a live caster in the baseline. -/
theorem applyEffects_zeroPres (T : Tuning) (selfR tgtR : Ref) (st0 : BS)
    (hself : (st0.getU selfR).soldiers ≠ 0) (effs : List Effect) (st : BS) (rng : Rng)
    (hz : zeroPres st0 st) : zeroPres st0 (applyEffects T selfR tgtR effs st rng).1 := by
  unfold applyEffects
  apply foldl_pres (fun se : BS × Rng => zeroPres st0 se.1)
  · exact hz
  · exact fun se eff _ h2 => applyEffect_zeroPres T selfR tgtR st0 hself se eff h2

/-- `skillStep` preserves dead units, given a live caster in the baseline. -/
theorem skillStep_zeroPres (T : Tuning) (tm : String) (selfR tgtR : Ref) (st0 : BS)
    (hself : (st0.getU selfR).soldiers ≠ 0) (se : BS × EngSt) (sk : Skill)
    (hz : zeroPres st0 se.1) : zeroPres st0 (skillStep T tm selfR tgtR se sk).1 := by
  unfold skillStep
  split
  · split
    · dsimp only
      exact applyEffects_zeroPres T selfR tgtR st0 hself sk.effects se.1 _ hz
    · exact hz
  · exact hz

/-- Liveness of the acting unit, from the pass guard. -/
theorem soldiers_ne_zero_of_guard (u : Unit) (h : ¬ (!u.is_alive) = true) :
    u.soldiers ≠ 0 := by
  have hb : u.is_alive = true := by
    revert h
    cases u.is_alive <;> simp
  have hgt : u.soldiers > 0 := of_decide_eq_true hb
  omega

/-- A whole start-pass action of one unit preserves dead units (with the
baseline at the action start). -/
theorem startAction_zeroPres (T : Tuning) (se : BS × EngSt) (r : Ref) :
    zeroPres se.1 (startAction T se r).1 := by
  unfold startAction
  by_cases hal : (!(se.1.getU r).is_alive) = true
  · rw [if_pos hal]
    exact zeroPres_refl _
  rw [if_neg hal]
  have hself : (se.1.getU r).soldiers ≠ 0 := soldiers_ne_zero_of_guard _ hal
  by_cases hcf : (T.confusionSkip && (se.1.getU r).has ("confusion")) = true
  · rw [if_pos hcf]
    exact zeroPres_refl _
  rw [if_neg hcf]
  split
  · exact zeroPres_refl _
  · rename_i ti heq
    apply foldl_pres (fun se2 : BS × EngSt => zeroPres se.1 se2.1)
    · exact zeroPres_refl _
    · exact fun se2 sk _ h2 => skillStep_zeroPres T _ r (r.1.other, ti) se.1 hself se2 sk h2

/-- A whole attack-pass action of one unit preserves dead units. -/
theorem attackAction_zeroPres (T : Tuning) (se : BS × EngSt) (r : Ref) :
    zeroPres se.1 (attackAction T se r).1 := by
  unfold attackAction
  by_cases hal : (!(se.1.getU r).is_alive) = true
  · rw [if_pos hal]
    exact zeroPres_refl _
  rw [if_neg hal]
  have hself : (se.1.getU r).soldiers ≠ 0 := soldiers_ne_zero_of_guard _ hal
  by_cases hcf : (T.confusionSkip && (se.1.getU r).has ("confusion")) = true
  · rw [if_pos hcf]
    exact zeroPres_refl _
  rw [if_neg hcf]
  split
  · exact zeroPres_refl _
  · rename_i ti heq
    have hz1 : zeroPres se.1 (basicAttackState T se r ti) := by
      unfold basicAttackState
      exact zeroPres_damage se.1 se.1 (zeroPres_refl _) (r.1.other, ti) _
        (le_trans zero_le_one (one_le_physical_damage _ _ _ _ _))
    split
    · apply foldl_pres (fun se2 : BS × EngSt => zeroPres se.1 se2.1)
      · exact hz1
      · exact fun se2 sk _ h2 => skillStep_zeroPres T _ r (r.1.other, ti) se.1 hself se2 sk h2
    · exact hz1

/-- The end-of-turn tick preserves dead units. -/
theorem tickAll_zeroPres (st : BS) : zeroPres st (tickAll st) := by
  intro r hr
  rw [tickAll_soldiers]
  exact hr

/-- The whole turn loop preserves dead units. -/
theorem runTurns_zeroPres (T : Tuning) (aInit bInit : Int) :
    ∀ (f : Nat) (k : Int) (st : BS) (e : EngSt),
      zeroPres st (runTurns T aInit bInit f k st e).2.1 := by
  intro f
  induction f with
  | zero => intro k st e; exact zeroPres_refl st
  | succ f ih =>
    intro k st e
    unfold runTurns
    split
    · exact zeroPres_refl st
    split
    · exact zeroPres_refl st
    · dsimp only
      refine zeroPres_trans ?_ (ih _ _ _)
      refine zeroPres_trans ?_ (tickAll_zeroPres _)
      apply foldl_pres (fun se2 : BS × EngSt => zeroPres st se2.1)
      · apply foldl_pres (fun se2 : BS × EngSt => zeroPres st se2.1)
        · exact zeroPres_refl st
        · exact fun se2 rr _ h2 => zeroPres_trans h2 (startAction_zeroPres T se2 rr)
      · exact fun se2 rr _ h2 => zeroPres_trans h2 (attackAction_zeroPres T se2 rr)

/-- C10: during a battle a unit at 0 soldiers stays at 0 until the battle
ends — the damage write-back floors at 0 (and keeps a dead unit at exactly 0
for any nonnegative damage), ally-heal target selection only returns living
units, and the final state of `run_battle` keeps every initially-dead unit
dead. -/
theorem dead_units_stay_dead (T : Tuning) :
    (∀ (d : Int) (u : Unit), 0 ≤ (damageUpd d u).soldiers)
    ∧ (∀ (u : Unit) (d : Int), u.soldiers = 0 → 0 ≤ d → (damageUpd d u).soldiers = 0)
    ∧ (∀ (team : List Unit) (count : Int), ∀ i ∈ pick_allies_lowest team count,
        (team.getD i defUnit).is_alive = true)
    ∧ (∀ (e : EngSt) (teamA teamB : List Unit),
        zeroPres { ta := teamA, tb := teamB } (run_battle T e teamA teamB).2.1) := by
  refine ⟨fun d u => le_max_left 0 _, fun u d h0 hd => ?_,
          fun team count => pick_allies_lowest_alive team count,
          fun e teamA teamB => ?_⟩
  · show max 0 (u.soldiers - d) = 0
    omega
  · unfold run_battle
    exact runTurns_zeroPres T _ _ _ _ _ _

/-- Concrete dead unit for the C10 witness. -/
def uDead : Unit := { uA with soldiers := 0 }

/-- Witness for C10: a dead unit keeps 0 soldiers under damage and across a
whole concrete battle. -/
theorem dead_units_stay_dead_witness :
    (damageUpd 7 uDead).soldiers = 0
    ∧ ((run_battle T0 e9 [uA, uDead] [uB]).2.1.getU (Side.A, 1)).soldiers = 0 := by
  refine ⟨(dead_units_stay_dead T0).2.1 uDead 7 rfl (by norm_num), ?_⟩
  exact (dead_units_stay_dead T0).2.2.2 e9 [uA, uDead] [uB] (Side.A, 1) rfl

/-! ### Monte Carlo aggregator (`simulate_many`, engine.py lines 199-232) -/

/-- Accumulator state of the trial loop of `simulate_many`
(engine.py lines 201-203). -/
structure SimAcc where
  winsA : Nat
  winsB : Nat
  winsDraw : Nat
  aLosses : List ℚ
  bLosses : List ℚ
  trig : List (String × Nat)
deriving DecidableEq

/-- `trig[k] = trig.get(k, 0) + v` on the insertion-ordered global trigger
dict (engine.py lines 210-211). -/
def addCount (tr : List (String × Nat)) (k : String) (v : Nat) : List (String × Nat) :=
  match slookup k tr with
  | some n => tr.map (fun p => if p.1 = k then (p.1, n + v) else p)
  | none => tr ++ [(k, v)]

/-- Folding one trial's `BattleResult` into the accumulators
(engine.py lines 207-211). -/
def accStep (acc : SimAcc) (res : BattleResult) : SimAcc :=
  { winsA := acc.winsA + (if res.winner = "A" then 1 else 0),
    winsB := acc.winsB + (if res.winner = "B" then 1 else 0),
    winsDraw := acc.winsDraw + (if res.winner = "draw" then 1 else 0),
    aLosses := acc.aLosses ++ [res.a_loss_rate],
    bLosses := acc.bLosses ++ [res.b_loss_rate],
    trig := res.triggers.foldl (fun tr p => addCount tr p.1 p.2) acc.trig }

/-- Ascending stable sort of rationals (as `statistics.median` sorts its
input). -/
def sortQ (l : List ℚ) : List ℚ := sortStable (fun a b => decide (a < b)) l

/-- `statistics.median`: middle of the sorted list, or the mean of the two
middle elements for even length. -/
def medianQ (l : List ℚ) : ℚ :=
  if (sortQ l).length % 2 = 1 then (sortQ l).getD ((sortQ l).length / 2) 0
  else ((sortQ l).getD ((sortQ l).length / 2 - 1) 0 + (sortQ l).getD ((sortQ l).length / 2) 0) / 2

/-- Population variance: the square of `statistics.pstdev`. -/
def pvarQ (l : List ℚ) : ℚ :=
  (l.map (fun x => (x - l.sum / (l.length : ℚ)) ^ 2)).sum / (l.length : ℚ)

/-- `min(xs)` on a nonempty list. -/
def listMin : List ℚ → ℚ
  | [] => 0
  | x :: xs => xs.foldl min x

/-- `max(xs)` on a nonempty list. -/
def listMax : List ℚ → ℚ
  | [] => 0
  | x :: xs => xs.foldl max x

/-- Distribution summary built by the `stats` helper (engine.py lines
213-220); `pvariance` stands for the reported population standard deviation
(its square — √ is irrational over ℚ, and squaring is injective on the
nonnegative reals, so equality of aggregates is unaffected). -/
structure DistStats where
  mean : ℚ
  median : ℚ
  low : ℚ
  high : ℚ
  pvariance : ℚ
deriving DecidableEq

/-- The `stats` helper with its per-field empty-list guards. -/
def mkStats (xs : List ℚ) : DistStats :=
  { mean := if xs.isEmpty then 0 else xs.sum / (xs.length : ℚ),
    median := if xs.isEmpty then 0 else medianQ xs,
    low := if xs.isEmpty then 0 else listMin xs,
    high := if xs.isEmpty then 0 else listMax xs,
    pvariance := if xs.isEmpty then 0 else pvarQ xs }

/-- The aggregate dict returned by `simulate_many` (engine.py lines 223-232). -/
structure AggResult where
  n : Nat
  winsA : Nat
  winsB : Nat
  winsDraw : Nat
  win_rate_A : ℚ
  win_rate_B : ℚ
  draw_rate : ℚ
  loss_A : DistStats
  loss_B : DistStats
  skill_triggers_top : List (String × Nat)
deriving DecidableEq

/-- Top 15 triggered skills by total count, stable descending
(engine.py line 222). -/
def trigTop (tr : List (String × Nat)) : List (String × Nat) :=
  (sortStable (fun p q : String × Nat => decide (q.2 < p.2)) tr).take 15

/-- Assembling the returned aggregate (engine.py lines 223-232), with the
`n = 0` rate guards. -/
def aggFinalize (n : Nat) (acc : SimAcc) : AggResult :=
  { n := n, winsA := acc.winsA, winsB := acc.winsB, winsDraw := acc.winsDraw,
    win_rate_A := if n ≠ 0 then (acc.winsA : ℚ) / (n : ℚ) else 0,
    win_rate_B := if n ≠ 0 then (acc.winsB : ℚ) / (n : ℚ) else 0,
    draw_rate := if n ≠ 0 then (acc.winsDraw : ℚ) / (n : ℚ) else 0,
    loss_A := mkStats acc.aLosses,
    loss_B := mkStats acc.bLosses,
    skill_triggers_top := trigTop acc.trig }

/-- The trial loop of `simulate_many` (engine.py lines 205-211): each
iteration draws one sub-seed `rng.randint(0, 10**9)` from the aggregator's own
generator and folds the factory's result for that sub-seed. -/
def simLoop (build_once : Int → BattleResult) : Nat → Rng → SimAcc → SimAcc × Rng
  | 0, rng, acc => (acc, rng)
  | Nat.succ m, rng, acc =>
      simLoop build_once m (rng.randint 0 (10 ^ 9)).2
        (accStep acc (build_once (rng.randint 0 (10 ^ 9)).1))

/-- The empty accumulators (engine.py lines 201-203). -/
def acc0 : SimAcc :=
  { winsA := 0, winsB := 0, winsDraw := 0, aLosses := [], bLosses := [], trig := [] }

/-- `simulate_many` (engine.py lines 199-232).  The stdlib constructor
`random.Random(seed)` of line 200 is abstracted as the parameter `mkRandom`, a
pure map from the top-level seed to a fresh generator state; no other state
enters the computation. -/
def simulate_many (mkRandom : Int → Rng) (build_once : Int → BattleResult) (n : Nat)
    (seed : Int) : AggResult :=
  aggFinalize n (simLoop build_once n (mkRandom seed) acc0).1

/-- The first `n` sub-seeds drawn from a generator state. -/
def subSeeds : Nat → Rng → List Int
  | 0, _ => []
  | Nat.succ m, rng => (rng.randint 0 (10 ^ 9)).1 :: subSeeds m (rng.randint 0 (10 ^ 9)).2

/-- The trial loop is the fold of the factory's results over the pre-drawn
sub-seed list. -/
theorem simLoop_eq_fold (build_once : Int → BattleResult) :
    ∀ (n : Nat) (rng : Rng) (acc : SimAcc),
      (simLoop build_once n rng acc).1 = ((subSeeds n rng).map build_once).foldl accStep acc
  | 0, _, _ => rfl
  | Nat.succ m, rng, acc => by
      unfold simLoop subSeeds
      rw [List.map_cons, List.foldl_cons]
      exact simLoop_eq_fold build_once m _ _

/-- Exactly `n` sub-seeds are drawn. -/
theorem subSeeds_length : ∀ (n : Nat) (rng : Rng), (subSeeds n rng).length = n
  | 0, _ => rfl
  | Nat.succ m, rng => by
      unfold subSeeds
      rw [List.length_cons, subSeeds_length m]

/-- C4: `simulate_many` is a pure function of the generator constructor, the
factory, N and the top-level seed — two invocations with (extensionally) equal
factories return equal aggregates — and the aggregate equals the fold of the
factory's results over the `n` sub-seeds pre-drawn from the single generator
built from the top-level seed; the top-level seed itself is never handed to a
trial, only the generator's `randint` outputs are. -/
theorem simulate_many_reproducible (mkRandom : Int → Rng) (f g : Int → BattleResult)
    (n : Nat) (s : Int) (hfg : ∀ x, f x = g x) :
    simulate_many mkRandom f n s = simulate_many mkRandom g n s
    ∧ simulate_many mkRandom f n s
        = aggFinalize n (((subSeeds n (mkRandom s)).map f).foldl accStep acc0)
    ∧ (subSeeds n (mkRandom s)).length = n := by
  have hf : f = g := funext hfg
  subst hf
  refine ⟨rfl, ?_, subSeeds_length n _⟩
  unfold simulate_many
  rw [simLoop_eq_fold]

/-- A fixed battle result for the C4 witness factory. -/
def resW : BattleResult :=
  { winner := "A", turns := 1, a_loss_rate := 0, b_loss_rate := 0, triggers := [] }

/-- Witness for C4 at a concrete constant factory, N = 2, seed 42. -/
theorem simulate_many_reproducible_witness :
    simulate_many (fun _ => rng0) (fun _ => resW) 2 42
      = simulate_many (fun _ => rng0) (fun _ => resW) 2 42
    ∧ (subSeeds 2 rng0).length = 2 :=
  ⟨(simulate_many_reproducible (fun _ => rng0) (fun _ => resW) (fun _ => resW) 2 42
      (fun _ => rfl)).1,
   (simulate_many_reproducible (fun _ => rng0) (fun _ => resW) (fun _ => resW) 2 42
      (fun _ => rfl)).2.2⟩

end Shinsen
